import Mathlib

/-!
Verification development for the screenshot-comparison app.

This file shallowly embeds the storage facade (`src/lib/storage-utils.ts`),
the timeline manager (`src/lib/timeline-storage.ts`), the markdown-stripping
text normalizer and grounding filter (`src/unnamed/part_000`), and the
compression quality-search loop (`src/lib/storage-utils.ts`, `compressImage`),
and proves the spec's testable properties about them.

Platform pieces that are not repository code are modelled explicitly:
* `localStorage` is a flat, insertion-ordered key/value store with unique
  keys; stored strings are modelled as a length together with the outcome of
  `JSON.parse` on them (`StoredVal`), so that the platform's
  `JSON.stringify`/`JSON.parse` round trip (spec section 8: byte-for-byte
  JSON round-trip) is exact.
* `new Date(s).getTime()` (the timestamp sort key of eviction) is an explicit
  function parameter `dt : String → Int`.
* `StorageUtils.compressImage`'s canvas encoder is an oracle parameter.
* IEEE-754 binary64 arithmetic (for the compression quality loop) is embedded
  exactly as round-to-nearest-even rationals (`roundDouble`), valid on the
  normal range used by the loop.
-/

/-! ## Data model (src/lib/types.ts) -/

/-- Outcome field of `FormattedInsight` (src/lib/types.ts, src/unnamed/part_000). -/
inductive Outcome where
  | positive
  | negative
deriving DecidableEq

/-- `FormattedInsight` from src/unnamed/part_000 / src/lib/types.ts. -/
structure FormattedInsight where
  principle : String
  outcome : Outcome
  rationale : String
deriving DecidableEq

/-- The `imageA` / `imageB` sub-record of `ComparisonResult` (src/lib/types.ts). -/
structure ImageRef where
  name : String
  data : String
  type : String
  size : Nat
deriving DecidableEq

/-- The `comparison` sub-record of `ComparisonResult` (src/lib/types.ts). -/
structure ComparisonBody where
  changes : List String
  implication : String
  psychologyInsights : Option (List FormattedInsight)
deriving DecidableEq

/-- The 'useful' / 'not-useful' feedback value (src/lib/types.ts). -/
inductive Feedback where
  | useful
  | notUseful
deriving DecidableEq

/-- `ComparisonResult` (src/lib/types.ts). -/
structure ComparisonResult where
  id : String
  imageA : ImageRef
  imageB : ImageRef
  comparison : ComparisonBody
  timestamp : String
  feedback : Option Feedback
deriving DecidableEq

/-- `TimelineScreenshot` (src/lib/types.ts).  The spec calls `order`
`sequenceIndex`. -/
structure TimelineScreenshot where
  id : String
  name : String
  data : String
  type : String
  size : Nat
  timestamp : String
  order : Nat
deriving DecidableEq

/-- The `type` field of `TimelineReport` (src/lib/types.ts). -/
inductive ReportType where
  | initial
  | continuation
  | summary
deriving DecidableEq

/-- `TimelineReport` (src/lib/types.ts). -/
structure TimelineReport where
  id : String
  type : ReportType
  fromScreenshotId : Option String
  toScreenshotId : String
  changes : List String
  implication : String
  strategicView : Option String
  psychologyInsights : Option (List FormattedInsight)
  timestamp : String
deriving DecidableEq

/-- `TimelineComparison` (src/lib/types.ts).  The `feedback` record
(JS object keyed by report id) is modelled as an association list. -/
structure TimelineComparison where
  id : String
  title : Option String
  screenshots : List TimelineScreenshot
  reports : List TimelineReport
  feedback : List (String × Feedback)
  createdAt : String
  updatedAt : String
deriving DecidableEq

/-! ## The localStorage model

`localStorage` maps string keys to string values, in insertion order
(assignment to an existing key keeps its position).  A stored string is
modelled by `StoredVal`: its `.length` plus the result of `JSON.parse` on it
(`ParsedVal`), which for this app is a timeline record, a comparison record,
or anything else (`invalid`: unparsable, or parsing to a value carrying
neither entity shape nor the timestamp fields the code reads). -/

/-- Result of `JSON.parse` on a stored value, as far as the code inspects it. -/
inductive ParsedVal where
  | timeline (t : TimelineComparison)
  | comparison (c : ComparisonResult)
  | invalid
deriving DecidableEq

/-- A stored string: its length and its parse. -/
structure StoredVal where
  len : Nat
  parsed : ParsedVal
deriving DecidableEq

/-- The localStorage state: key/value pairs in insertion order. -/
abbrev Store := List (String × StoredVal)

/-- `localStorage.getItem(k)` (also the `localStorage[key]` reads). -/
def getItem : Store → String → Option StoredVal
  | [], _ => none
  | (k', v) :: rest, k => if k' = k then some v else getItem rest k

/-- `localStorage.setItem(k, v)`: overwrite in place, or append a new key. -/
def setItem : Store → String → StoredVal → Store
  | [], k, v => [(k, v)]
  | (k', v') :: rest, k, v =>
    if k' = k then (k', v) :: rest else (k', v') :: setItem rest k v

/-- `localStorage.removeItem(k)`. -/
def removeItem : Store → String → Store
  | [], _ => []
  | (k', v) :: rest, k =>
    if k' = k then removeItem rest k else (k', v) :: removeItem rest k

/-- The keys of a store, in order. -/
def keysOf (st : Store) : List String := st.map Prod.fst

/-- `StorageUtils.MAX_STORAGE_SIZE = 4 * 1024 * 1024` (src/lib/storage-utils.ts line 2). -/
def maxStorageSize : Nat := 4 * 1024 * 1024

/-- `StorageUtils.getCurrentStorageUsage` (src/lib/storage-utils.ts lines 125-133):
sums `value.length + key.length` over every key in the store. -/
def usage : Store → Nat
  | [] => 0
  | (k, v) :: rest => v.len + k.length + usage rest

/-- Char-list prefix test (used to model JS `String.prototype.startsWith`). -/
def startsWithL : List Char → List Char → Bool
  | _, [] => true
  | [], _ :: _ => false
  | h :: t, n :: m => h == n && startsWithL t m

/-- JS `s.startsWith(pre)`. -/
def strStarts (s pre : String) : Bool := startsWithL s.data pre.data

/-- The timestamp the eviction routine extracts from a parsed record:
`data.updatedAt || data.timestamp || '1970-01-01'`
(src/lib/storage-utils.ts line 148; JS `||` treats the empty string and a
missing field alike as falsy; parse failures take the catch branch,
line 153). Timeline records carry `updatedAt` and no top-level `timestamp`;
comparison records carry `timestamp` and no `updatedAt`. -/
def tsOf : StoredVal → String
  | { parsed := ParsedVal.timeline t, .. } =>
    if t.updatedAt = "" then "1970-01-01" else t.updatedAt
  | { parsed := ParsedVal.comparison c, .. } =>
    if c.timestamp = "" then "1970-01-01" else c.timestamp
  | { parsed := ParsedVal.invalid, .. } => "1970-01-01"

/-- One element of the `items` array built by `cleanupOldData`
(src/lib/storage-utils.ts lines 142-156). -/
structure EvictItem where
  key : String
  timestamp : String
  size : Nat
deriving DecidableEq

/-- Builds the eviction candidate for one store entry. -/
def itemOf (kv : String × StoredVal) : EvictItem :=
  { key := kv.1, timestamp := tsOf kv.2, size := kv.2.len + kv.1.length }

/-- The eviction candidates: every record whose key starts with `timeline-`
or `comparison-` (src/lib/storage-utils.ts lines 144-156), in store order. -/
def candidateItems (st : Store) : List EvictItem :=
  st.filterMap fun kv =>
    if strStarts kv.1 "timeline-" || strStarts kv.1 "comparison-" then
      some (itemOf kv)
    else none

/-- Stable insertion into a list sorted by `le` (the inserted element goes
before the first element it is `le`-below-or-equal to). -/
def insSorted {α : Type} (le : α → α → Bool) (a : α) : List α → List α
  | [] => [a]
  | b :: l => if le a b then a :: b :: l else b :: insSorted le a l

/-- Stable sort by `le`; models `Array.prototype.sort` with the ascending
comparator `(a, b) => dt(a.timestamp) - dt(b.timestamp)`
(src/lib/storage-utils.ts line 159; the ECMAScript sort is stable, and any
two stable ascending sorts agree). -/
def jsSortBy {α : Type} (le : α → α → Bool) : List α → List α
  | [] => []
  | a :: l => insSorted le a (jsSortBy le l)

/-- The ascending-timestamp comparator, with `dt` standing for the platform
`new Date(s).getTime()`. -/
def leItem (dt : String → Int) (a b : EvictItem) : Bool :=
  decide (dt a.timestamp ≤ dt b.timestamp)

/-- The deletion loop of `cleanupOldData` (src/lib/storage-utils.ts lines
161-171): walk the sorted candidates; before each item, stop if
`freedBytes >= bytesNeeded`; otherwise remove it and add its size.
Returns the store and the total `freedBytes`. -/
def evictLoop (need : Int) : List EvictItem → Store → Nat → Store × Nat
  | [], st, freed => (st, freed)
  | i :: rest, st, freed =>
    if need ≤ (freed : Int) then (st, freed)
    else evictLoop need rest (removeItem st i.key) (freed + i.size)

/-- `StorageUtils.cleanupOldData` (src/lib/storage-utils.ts lines 138-175).
`dt` models `new Date(s).getTime()`.  Returns
(`freedBytes >= bytesNeeded`, the store after the deletions). -/
def cleanupOldData (dt : String → Int) (st : Store) (bytesNeeded : Int) :
    Bool × Store :=
  let sorted := jsSortBy (leItem dt) (candidateItems st)
  let r := evictLoop bytesNeeded sorted st 0
  (decide (bytesNeeded ≤ (r.2 : Int)), r.1)

/-- `StorageUtils.safeSetItem` (src/lib/storage-utils.ts lines 180-206).
Quota check, eviction on shortfall, then the write.  The thrown
`QUOTA_EXCEEDED` is re-thrown by the catch block as `STORAGE_QUOTA_EXCEEDED`,
so the net effect modelled here is a single `STORAGE_QUOTA_EXCEEDED` error.
(The browser's own `QuotaExceededError` cannot arise in the model: the
backing store is unbounded and the 4 MiB ceiling is the code's own.) -/
def safeSetItem (dt : String → Int) (st : Store) (key : String)
    (v : StoredVal) : Except String Store :=
  let valueSize := v.len + key.length
  let currentUsage := usage st
  if currentUsage + valueSize ≤ maxStorageSize then
    Except.ok (setItem st key v)
  else
    let bytesNeeded : Int :=
      (valueSize : Int) - ((maxStorageSize : Int) - (currentUsage : Int))
    let r := cleanupOldData dt st bytesNeeded
    if r.1 then Except.ok (setItem r.2 key v)
    else Except.error "STORAGE_QUOTA_EXCEEDED"

/-! ## Timeline manager (src/lib/timeline-storage.ts) -/

/-- The second comma-separated field of a char list (JS `s.split(',')[1]`:
the text between the first and second comma). -/
def sliceAfterComma (l : List Char) : List Char :=
  (((l.dropWhile fun c => c ≠ ',').drop 1).takeWhile fun c => c ≠ ',')

/-- Base64 payload extraction used throughout the timeline manager:
`s.includes(',') ? s.split(',')[1] : s`
(src/lib/timeline-storage.ts lines 32-33, 194; src/lib/storage-utils.ts
lines 99-105). -/
def extractB64 (s : String) : String :=
  if s.data.contains ',' then String.mk (sliceAfterComma s.data) else s

/-- `StorageUtils.getDataSizeKB` (src/lib/storage-utils.ts lines 93-109):
`Math.round((base64Data.length * 3) / 4 / 1024)`.  On these exact dyadic
values JS `Math.round(x)` is `floor(x + 1/2)`, i.e. `(3l + 2048) / 4096`
in integer arithmetic (the double computation is exact for l < 2^50). -/
def getDataSizeKB (s : String) : Nat :=
  (3 * (extractB64 s).length + 2048) / 4096

/-- JS `a || b` for an optional string (`undefined` and `''` are falsy). -/
def jsOrStr (a : Option String) (b : String) : String :=
  match a with
  | some s => if s = "" then b else s
  | none => b

/-- Abstract model of the length of the platform `JSON.stringify` output for
one insight.  (The claims never depend on the exact value, only on how
lengths are accounted; any fixed measure is sound here.) -/
def serLenInsight (i : FormattedInsight) : Nat :=
  i.principle.length + i.rationale.length + 60

/-- Abstract serialized length of a screenshot record. -/
def serLenShot (s : TimelineScreenshot) : Nat :=
  s.id.length + s.name.length + s.data.length + s.type.length +
    s.timestamp.length + 90

/-- Abstract serialized length of a report record. -/
def serLenReport (r : TimelineReport) : Nat :=
  r.id.length + r.toScreenshotId.length + r.implication.length +
    r.timestamp.length + (r.changes.map String.length).sum +
    ((r.psychologyInsights.getD []).map serLenInsight).sum + 120

/-- Abstract model of `JSON.stringify(timeline).length`
(src/lib/timeline-storage.ts line 85). -/
def serLen (t : TimelineComparison) : Nat :=
  t.id.length + (t.title.getD "").length + (t.screenshots.map serLenShot).sum +
    (t.reports.map serLenReport).sum + t.createdAt.length +
    t.updatedAt.length + (t.feedback.map fun kv => kv.1.length + 20).sum + 80

/-- `TimelineStorage.createTimelineFromComparison`
(src/lib/timeline-storage.ts lines 8-81).  `compress` is the
`StorageUtils.compressImage(_, 400)` oracle (its canvas work is platform
code; `none` models a rejected promise), `uuid` models
`globalThis.crypto.randomUUID()` and `now` models `new Date().toISOString()`.
Of the validated fields only `comparison.id` can be falsy in the typed
model (`imageA`, `imageB` and `comparison` are object-valued, hence truthy). -/
def createTimelineFromComparison (compress : String → Option String)
    (uuid now : String) (c : ComparisonResult) (title : Option String) :
    Except String TimelineComparison :=
  if c.id = "" then
    Except.error "Invalid comparison data: missing required properties"
  else
    match compress c.imageA.data, compress c.imageB.data with
    | some compressedA, some compressedB =>
      let dataA := extractB64 compressedA
      let dataB := extractB64 compressedB
      let s0 : TimelineScreenshot :=
        { id := "screenshot-" ++ c.id ++ "-a"
          name := c.imageA.name
          data := dataA
          type := "image/jpeg"
          size := getDataSizeKB compressedA * 1024
          timestamp := c.timestamp
          order := 0 }
      let s1 : TimelineScreenshot :=
        { id := "screenshot-" ++ c.id ++ "-b"
          name := c.imageB.name
          data := dataB
          type := "image/jpeg"
          size := getDataSizeKB compressedB * 1024
          timestamp := c.timestamp
          order := 1 }
      let initialReport : TimelineReport :=
        { id := "report-" ++ c.id
          type := ReportType.initial
          fromScreenshotId := some s0.id
          toScreenshotId := s1.id
          changes := c.comparison.changes
          implication := c.comparison.implication
          strategicView := none
          psychologyInsights := none
          timestamp := c.timestamp }
      Except.ok
        { id := "timeline-" ++ uuid
          title := title
          screenshots := [s0, s1]
          reports := [initialReport]
          feedback :=
            match c.feedback with
            | some f => [(initialReport.id, f)]
            | none => []
          createdAt := now
          updatedAt := now }
    | _, _ =>
      Except.error
        "Failed to compress images for timeline creation. The images might be too large or corrupted."

/-- The user-facing quota message of `saveTimeline`
(src/lib/timeline-storage.ts line 98). -/
def quotaUserMessage : String :=
  "Storage quota exceeded. Try removing some old comparisons or timelines from the history page to free up space."

/-- Is every character of the string at most U+00FF?  `btoa` throws
`InvalidCharacterError` on any character above that. -/
def strLatin1 (s : String) : Bool := s.data.all fun c => c.toNat ≤ 0xff

/-- `strLatin1` lifted over an optional string (an absent field is omitted
from the JSON output, so it cannot break `btoa`). -/
def optLatin1 : Option String → Bool
  | some s => strLatin1 s
  | none => true

/-- Are all string fields of an insight Latin-1? -/
def insightLatin1 (i : FormattedInsight) : Bool :=
  strLatin1 i.principle && strLatin1 i.rationale

/-- Are all string fields of a screenshot Latin-1? -/
def shotLatin1 (s : TimelineScreenshot) : Bool :=
  strLatin1 s.id && strLatin1 s.name && strLatin1 s.data && strLatin1 s.type &&
    strLatin1 s.timestamp

/-- Are all string fields of a report Latin-1? -/
def reportLatin1 (r : TimelineReport) : Bool :=
  strLatin1 r.id && optLatin1 r.fromScreenshotId && strLatin1 r.toScreenshotId &&
    r.changes.all strLatin1 && strLatin1 r.implication &&
    optLatin1 r.strategicView &&
    (match r.psychologyInsights with
      | some l => l.all insightLatin1
      | none => true) &&
    strLatin1 r.timestamp

/-- Does `btoa(JSON.stringify(t))` succeed?  `JSON.stringify` escapes
control characters, quotes and backslashes to ASCII and passes every other
character of a string field through raw, and all structural output
(braces, keys, numbers, the fixed `'useful'`/`'not-useful'`/report-type
enum strings) is ASCII — so the serialized timeline contains a character
above U+00FF (making `btoa` throw `InvalidCharacterError`) exactly when
some string field of `t` does. -/
def timelineLatin1 (t : TimelineComparison) : Bool :=
  strLatin1 t.id && optLatin1 t.title && t.screenshots.all shotLatin1 &&
    t.reports.all reportLatin1 &&
    (t.feedback.all fun kv => strLatin1 kv.1) &&
    strLatin1 t.createdAt && strLatin1 t.updatedAt

/-- `TimelineStorage.saveTimeline` (src/lib/timeline-storage.ts lines
83-102): stamps `updatedAt = now`, serializes, logs the data size through
`btoa(timelineData)` (line 88) — which throws `InvalidCharacterError`
whenever the serialized timeline contains a character above U+00FF, before
any write and outside the try block, so that error propagates unmapped —
then writes under `timeline.id` and maps `STORAGE_QUOTA_EXCEEDED` to the
dedicated user-facing message.  The in-place mutation of the argument is
modelled by returning the stamped timeline alongside the store. -/
def saveTimeline (dt : String → Int) (st : Store) (t : TimelineComparison)
    (now : String) : Except String (TimelineComparison × Store) :=
  let t2 := { t with updatedAt := now }
  if timelineLatin1 t2 then
    match safeSetItem dt st t2.id { len := serLen t2, parsed := ParsedVal.timeline t2 } with
    | Except.ok st' => Except.ok (t2, st')
    | Except.error e =>
      Except.error (if e = "STORAGE_QUOTA_EXCEEDED" then quotaUserMessage else e)
  else Except.error "InvalidCharacterError"

/-- `TimelineStorage.getTimeline` (src/lib/timeline-storage.ts lines
104-119): read by id, parse, return the record only when
`isTimelineComparison` holds (it has a `screenshots` array); `null` on a
missing key, a parse failure, or any other shape. -/
def getTimeline (st : Store) (id : String) : Option TimelineComparison :=
  match getItem st id with
  | none => none
  | some v =>
    match v.parsed with
    | ParsedVal.timeline t => some t
    | _ => none

/-- The raw screenshot argument of `addScreenshotToTimeline`
(src/lib/timeline-storage.ts lines 162-165). -/
structure RawScreenshot where
  id : Option String
  name : String
  data : String
  type : String
  size : Nat
deriving DecidableEq

/-- `TimelineStorage.addScreenshotToTimeline` (src/lib/timeline-storage.ts
lines 162-214).  Missing timeline: returns `none` untouched.  Then the
screenshot data is validated (`!screenshot.data` — empty string is falsy),
the image compressed (oracle; a rejection propagates), the new screenshot
appended with `order = screenshots.length`, and the timeline saved. -/
def addScreenshotToTimeline (compress : String → Option String)
    (uuid now : String) (dt : String → Int) (st : Store)
    (timelineId : String) (shot : RawScreenshot) :
    Except String (Option TimelineComparison × Store) :=
  match getTimeline st timelineId with
  | none => Except.ok (none, st)
  | some timeline =>
    if shot.data = "" then Except.error "Invalid screenshot data"
    else
      match compress shot.data with
      | none => Except.error "Failed to load image for compression"
      | some compressedData =>
        let newShot : TimelineScreenshot :=
          { id := jsOrStr shot.id ("screenshot-" ++ uuid)
            name := shot.name
            data := extractB64 compressedData
            type := "image/jpeg"
            size := getDataSizeKB compressedData * 1024
            timestamp := now
            order := timeline.screenshots.length }
        let t2 := { timeline with screenshots := timeline.screenshots ++ [newShot] }
        match saveTimeline dt st t2 now with
        | Except.ok (t3, st') => Except.ok (some t3, st')
        | Except.error e => Except.error e

/-- `TimelineStorage.deleteTimeline` (src/lib/timeline-storage.ts lines
216-223): removes the record stored under the key `id` itself (no prefix is
prepended) and returns `true`; `removeItem` never throws, so the catch
branch is dead. -/
def deleteTimeline (st : Store) (id : String) : Bool × Store :=
  (true, removeItem st id)

/-- `TimelineStorage.deleteComparison` (src/lib/timeline-storage.ts lines
225-232): removes the record stored under `'comparison-' + id` and returns
`true`. -/
def deleteComparison (st : Store) (id : String) : Bool × Store :=
  (true, removeItem st ("comparison-" ++ id))

/-! ## Basic store lemmas -/

theorem getItem_setItem_self (st : Store) (k : String) (v : StoredVal) :
    getItem (setItem st k v) k = some v := by
  induction st with
  | nil => simp [setItem, getItem]
  | cons kv rest ih =>
    obtain ⟨k', v'⟩ := kv
    by_cases h : k' = k
    · simp [setItem, getItem, h]
    · simp [setItem, getItem, h, ih]

theorem getItem_removeItem (st : Store) (k k' : String) :
    getItem (removeItem st k) k' = if k' = k then none else getItem st k' := by
  induction st with
  | nil => simp [removeItem, getItem]
  | cons kv rest ih =>
    obtain ⟨k0, v0⟩ := kv
    by_cases h : k0 = k
    · subst h
      rw [removeItem, if_pos rfl, ih]
      by_cases h' : k' = k0
      · simp [h']
      · rw [if_neg h', if_neg h', getItem, if_neg (fun e => h' e.symm)]
    · rw [removeItem, if_neg h]
      by_cases h' : k0 = k'
      · subst h'
        have hne : ¬ (k0 = k) := h
        simp [getItem, hne]
      · simp only [getItem, if_neg h', ih]

theorem usage_setItem_le (st : Store) (k : String) (v : StoredVal) :
    usage (setItem st k v) ≤ usage st + (v.len + k.length) := by
  induction st with
  | nil => simp [setItem, usage]
  | cons kv rest ih =>
    obtain ⟨k', v'⟩ := kv
    by_cases h : k' = k
    · subst h
      simp only [setItem, if_pos rfl, usage]
      omega
    · simp only [setItem, if_neg h, usage]
      omega

theorem removeItem_sublist (st : Store) (k : String) :
    List.Sublist (removeItem st k) st := by
  induction st with
  | nil => simp [removeItem]
  | cons kv rest ih =>
    obtain ⟨k0, v0⟩ := kv
    by_cases h : k0 = k
    · rw [removeItem, if_pos h]
      exact ih.cons (k0, v0)
    · rw [removeItem, if_neg h]
      exact ih.cons₂ (k0, v0)

theorem keysNodup_removeItem (st : Store) (k : String)
    (h : (keysOf st).Nodup) : (keysOf (removeItem st k)).Nodup :=
  ((removeItem_sublist st k).map Prod.fst).nodup h

theorem removeItem_of_not_mem_keys (st : Store) (k : String)
    (h : k ∉ keysOf st) : removeItem st k = st := by
  induction st with
  | nil => rfl
  | cons kv rest ih =>
    obtain ⟨k0, v0⟩ := kv
    simp only [keysOf, List.map_cons, List.mem_cons, not_or] at h
    rw [removeItem, if_neg (fun e => h.1 e.symm)]
    rw [ih (by simpa [keysOf] using h.2)]

theorem getItem_some_of_mem (st : Store) (k : String) (v : StoredVal)
    (hnd : (keysOf st).Nodup) (hmem : (k, v) ∈ st) : getItem st k = some v := by
  induction st with
  | nil => simp at hmem
  | cons kv rest ih =>
    obtain ⟨k0, v0⟩ := kv
    simp only [keysOf, List.map_cons, List.nodup_cons] at hnd
    rcases List.mem_cons.mp hmem with heq | hrest
    · cases heq
      rw [getItem, if_pos rfl]
    · have hk0 : ¬ (k0 = k) := by
        intro hEq
        subst hEq
        exact hnd.1 (List.mem_map_of_mem Prod.fst hrest)
      rw [getItem, if_neg hk0]
      exact ih (by simpa [keysOf] using hnd.2) hrest

theorem getItem_none_of_not_mem_keys (st : Store) (k : String)
    (h : k ∉ keysOf st) : getItem st k = none := by
  induction st with
  | nil => rfl
  | cons kv rest ih =>
    obtain ⟨k0, v0⟩ := kv
    simp only [keysOf, List.map_cons, List.mem_cons, not_or] at h
    rw [getItem, if_neg (fun e => h.1 e.symm)]
    exact ih (by simpa [keysOf] using h.2)

theorem usage_removeItem (st : Store) (k : String) (v : StoredVal)
    (hnd : (keysOf st).Nodup) (hget : getItem st k = some v) :
    usage (removeItem st k) + (v.len + k.length) = usage st := by
  induction st with
  | nil => simp [getItem] at hget
  | cons kv rest ih =>
    obtain ⟨k0, v0⟩ := kv
    simp only [keysOf, List.map_cons, List.nodup_cons] at hnd
    by_cases h : k0 = k
    · subst h
      rw [getItem, if_pos rfl] at hget
      have hv : v0 = v := by
        injection hget
      subst hv
      rw [removeItem, if_pos rfl,
        removeItem_of_not_mem_keys rest k0 hnd.1, usage]
      omega
    · rw [getItem, if_neg h] at hget
      rw [removeItem, if_neg h]
      have := ih hnd.2 hget
      simp only [usage]
      omega

/-! ## Sort lemmas -/

theorem insSorted_perm {α : Type} (le : α → α → Bool) (a : α) (l : List α) :
    List.Perm (insSorted le a l) (a :: l) := by
  induction l with
  | nil => simp [insSorted]
  | cons b t ih =>
    by_cases h : le a b
    · simp [insSorted, h]
    · simp only [insSorted, if_neg h]
      exact (ih.cons b).trans (List.Perm.swap a b t)

theorem jsSortBy_perm {α : Type} (le : α → α → Bool) (l : List α) :
    List.Perm (jsSortBy le l) l := by
  induction l with
  | nil => simp [jsSortBy]
  | cons a t ih =>
    exact (insSorted_perm le a (jsSortBy le t)).trans (ih.cons a)

theorem insSorted_pairwise {α : Type} (le : α → α → Bool)
    (htot : ∀ x y, le x y = true ∨ le y x = true)
    (htrans : ∀ x y z, le x y = true → le y z = true → le x z = true)
    (a : α) (l : List α)
    (hl : l.Pairwise fun x y => le x y = true) :
    (insSorted le a l).Pairwise fun x y => le x y = true := by
  induction l with
  | nil => simp [insSorted]
  | cons b t ih =>
    rcases List.pairwise_cons.mp hl with ⟨hb, ht⟩
    by_cases h : le a b
    · rw [insSorted, if_pos h]
      refine List.Pairwise.cons ?_ hl
      intro x hx
      rcases List.mem_cons.mp hx with rfl | hxt
      · exact h
      · exact htrans a b x h (hb x hxt)
    · rw [insSorted, if_neg h]
      refine List.Pairwise.cons ?_ (ih ht)
      intro x hx
      have hx' := (insSorted_perm le a t).mem_iff.mp hx
      rcases List.mem_cons.mp hx' with rfl | hxt
      · rcases htot x b with hxb | hbx
        · exact absurd hxb h
        · exact hbx
      · exact hb x hxt

/-! ## Eviction accounting -/

/-- Total size of a list of eviction candidates. -/
def sizeSum (items : List EvictItem) : Nat := (items.map EvictItem.size).sum

/-- The items a run of the eviction loop may rely on: distinct keys, each
present in the store with the recorded size. -/
def goodItems (st : Store) (items : List EvictItem) : Prop :=
  (items.map EvictItem.key).Nodup ∧
    ∀ i ∈ items, ∃ v, getItem st i.key = some v ∧ i.size = v.len + i.key.length

theorem evictLoop_spec (need : Int) :
    ∀ (items : List EvictItem) (st : Store) (freed : Nat),
      (keysOf st).Nodup → goodItems st items →
      usage (evictLoop need items st freed).1 + (evictLoop need items st freed).2
          = usage st + freed ∧
        (keysOf (evictLoop need items st freed).1).Nodup ∧
        freed ≤ (evictLoop need items st freed).2 := by
  intro items
  induction items with
  | nil =>
    intro st freed hnd _
    simp [evictLoop, hnd]
  | cons i rest ih =>
    intro st freed hnd hgood
    by_cases hstop : need ≤ (freed : Int)
    · simp [evictLoop, hstop, hnd]
    · obtain ⟨hkeys, hmemP⟩ := hgood
      obtain ⟨v, hget, hsize⟩ := hmemP i (List.mem_cons_self i rest)
      have hu := usage_removeItem st i.key v hnd hget
      have hnd' := keysNodup_removeItem st i.key hnd
      have hgood' : goodItems (removeItem st i.key) rest := by
        refine ⟨(List.nodup_cons.mp hkeys).2, ?_⟩
        intro j hj
        obtain ⟨w, hw, hws⟩ := hmemP j (List.mem_cons_of_mem i hj)
        refine ⟨w, ?_, hws⟩
        rw [getItem_removeItem]
        have hne : j.key ≠ i.key := by
          intro e
          exact (List.nodup_cons.mp hkeys).1
            (e ▸ List.mem_map_of_mem EvictItem.key hj)
        rw [if_neg hne]
        exact hw
      have hrec := ih (removeItem st i.key) (freed + i.size) hnd' hgood'
      simp only [evictLoop, if_neg hstop]
      refine ⟨?_, hrec.2.1, ?_⟩
      · omega
      · omega

theorem evictLoop_frame (need : Int) :
    ∀ (items : List EvictItem) (st : Store) (freed : Nat) (k : String),
      (∀ i ∈ items, i.key ≠ k) →
      getItem (evictLoop need items st freed).1 k = getItem st k := by
  intro items
  induction items with
  | nil =>
    intro st freed k _
    simp [evictLoop]
  | cons i rest ih =>
    intro st freed k hne
    by_cases hstop : need ≤ (freed : Int)
    · simp [evictLoop, hstop]
    · simp only [evictLoop, if_neg hstop]
      rw [ih (removeItem st i.key) (freed + i.size) k
        (fun j hj => hne j (List.mem_cons_of_mem i hj))]
      rw [getItem_removeItem]
      rw [if_neg ?_]
      intro e
      exact hne i (List.mem_cons_self i rest) e.symm

theorem candidateItems_cons_pos (k0 : String) (v0 : StoredVal) (rest : Store)
    (h : (strStarts k0 "timeline-" || strStarts k0 "comparison-") = true) :
    candidateItems ((k0, v0) :: rest) = itemOf (k0, v0) :: candidateItems rest := by
  unfold candidateItems
  rw [List.filterMap_cons]
  simp [h]

theorem candidateItems_cons_neg (k0 : String) (v0 : StoredVal) (rest : Store)
    (h : ¬ ((strStarts k0 "timeline-" || strStarts k0 "comparison-") = true)) :
    candidateItems ((k0, v0) :: rest) = candidateItems rest := by
  unfold candidateItems
  rw [List.filterMap_cons]
  simp [h]

theorem candidateItems_keys_sublist (st : Store) :
    List.Sublist ((candidateItems st).map EvictItem.key) (keysOf st) := by
  induction st with
  | nil => simp [candidateItems, keysOf]
  | cons kv rest ih =>
    obtain ⟨k0, v0⟩ := kv
    have hk : keysOf ((k0, v0) :: rest) = k0 :: keysOf rest := rfl
    by_cases h : (strStarts k0 "timeline-" || strStarts k0 "comparison-") = true
    · rw [candidateItems_cons_pos k0 v0 rest h, hk, List.map_cons]
      exact ih.cons₂ k0
    · rw [candidateItems_cons_neg k0 v0 rest h, hk]
      exact ih.cons k0

theorem mem_candidateItems (st : Store) (i : EvictItem)
    (h : i ∈ candidateItems st) :
    ∃ kv, kv ∈ st ∧ i = itemOf kv ∧
      (strStarts kv.1 "timeline-" || strStarts kv.1 "comparison-") = true := by
  obtain ⟨kv, hkv, hf⟩ := List.mem_filterMap.mp h
  by_cases hp : (strStarts kv.1 "timeline-" || strStarts kv.1 "comparison-") = true
  · rw [if_pos hp] at hf
    exact ⟨kv, hkv, (Option.some.injEq _ _ ▸ hf).symm, hp⟩
  · rw [if_neg hp] at hf
    cases hf

theorem goodItems_candidates (st : Store) (hnd : (keysOf st).Nodup) :
    goodItems st (candidateItems st) := by
  refine ⟨(candidateItems_keys_sublist st).nodup hnd, ?_⟩
  intro i hi
  obtain ⟨kv, hkv, hio, _⟩ := mem_candidateItems st i hi
  refine ⟨kv.2, ?_, ?_⟩
  · have : i.key = kv.1 := by rw [hio]; rfl
    rw [this]
    exact getItem_some_of_mem st kv.1 kv.2 hnd hkv
  · rw [hio]
    rfl

theorem goodItems_perm (st : Store) (l l' : List EvictItem)
    (hperm : List.Perm l l') (h : goodItems st l) : goodItems st l' := by
  refine ⟨((hperm.map EvictItem.key).nodup_iff).mp h.1, ?_⟩
  intro i hi
  exact h.2 i (hperm.mem_iff.mpr hi)

/-! ## The eviction policy as the spec states it

`claimedTaken` is the spec-side description of the deletion phase ("delete
records in ascending-timestamp order, accumulating freed bytes, until freed
bytes reach the requested headroom or no candidates remain"): the prefix of
the sorted candidate list that actually gets deleted. -/

/-- Spec-side definition: the prefix of `items` (already sorted ascending)
deleted when `need` bytes of headroom are requested. -/
def claimedTaken (need : Int) : List EvictItem → List EvictItem
  | [] => []
  | i :: rest =>
    if need ≤ 0 then [] else i :: claimedTaken (need - (i.size : Int)) rest

/-- Removing a list of keys in order. -/
def removeKeys (st : Store) (ks : List String) : Store := ks.foldl removeItem st

theorem evictLoop_eq_claimed (need : Int) :
    ∀ (items : List EvictItem) (st : Store) (freed : Nat),
      evictLoop need items st freed =
        (removeKeys st ((claimedTaken (need - freed) items).map EvictItem.key),
          freed + sizeSum (claimedTaken (need - freed) items)) := by
  intro items
  induction items with
  | nil =>
    intro st freed
    simp [evictLoop, claimedTaken, removeKeys, sizeSum]
  | cons i rest ih =>
    intro st freed
    by_cases h : need ≤ (freed : Int)
    · have h0 : need - (freed : Int) ≤ 0 := by omega
      simp [evictLoop, h, claimedTaken, h0, removeKeys, sizeSum]
    · have h0 : ¬ (need - (freed : Int) ≤ 0) := by omega
      rw [evictLoop, if_neg h, ih, claimedTaken, if_neg h0]
      have hc : need - ((freed + i.size : Nat) : Int) =
          need - (freed : Int) - (i.size : Int) := by
        push_cast
        ring
      rw [hc]
      refine Prod.ext ?_ ?_
      · rw [List.map_cons]
        rfl
      · simp only [sizeSum, List.map_cons, List.sum_cons]
        omega

/-- `cleanupOldData` does exactly what the spec's eviction paragraph says:
it deletes the `claimedTaken` prefix of the ascending-sorted candidates and
reports whether the freed total reached the request. -/
theorem cleanupOldData_eq_claimed (dt : String → Int) (st : Store) (need : Int) :
    cleanupOldData dt st need =
      (decide (need ≤
          (sizeSum (claimedTaken need (jsSortBy (leItem dt) (candidateItems st))) : Int)),
        removeKeys st
          ((claimedTaken need (jsSortBy (leItem dt) (candidateItems st))).map
            EvictItem.key)) := by
  show
    (decide (need ≤
        ((evictLoop need (jsSortBy (leItem dt) (candidateItems st)) st 0).2 : Int)),
      (evictLoop need (jsSortBy (leItem dt) (candidateItems st)) st 0).1) = _
  rw [evictLoop_eq_claimed]
  norm_num

theorem leItem_total (dt : String → Int) (a b : EvictItem) :
    leItem dt a b = true ∨ leItem dt b a = true := by
  unfold leItem
  rcases le_total (dt a.timestamp) (dt b.timestamp) with h | h
  · left
    exact decide_eq_true h
  · right
    exact decide_eq_true h

theorem leItem_trans (dt : String → Int) (a b c : EvictItem)
    (h1 : leItem dt a b = true) (h2 : leItem dt b c = true) :
    leItem dt a c = true := by
  unfold leItem at *
  exact decide_eq_true (le_trans (of_decide_eq_true h1) (of_decide_eq_true h2))

/-! ## Consequences for `cleanupOldData` and `safeSetItem` -/

theorem cleanupOldData_spec (dt : String → Int) (st : Store) (need : Int)
    (hnd : (keysOf st).Nodup) :
    usage (cleanupOldData dt st need).2 ≤ usage st ∧
      (keysOf (cleanupOldData dt st need).2).Nodup ∧
      ((cleanupOldData dt st need).1 = true →
        need + (usage (cleanupOldData dt st need).2 : Int) ≤ (usage st : Int)) := by
  have hgood : goodItems st (jsSortBy (leItem dt) (candidateItems st)) :=
    goodItems_perm st _ _ (jsSortBy_perm (leItem dt) (candidateItems st)).symm
      (goodItems_candidates st hnd)
  have hspec :=
    evictLoop_spec need (jsSortBy (leItem dt) (candidateItems st)) st 0 hnd hgood
  have hdef1 : (cleanupOldData dt st need).2 =
      (evictLoop need (jsSortBy (leItem dt) (candidateItems st)) st 0).1 := rfl
  have hdef2 : (cleanupOldData dt st need).1 =
      decide (need ≤
        ((evictLoop need (jsSortBy (leItem dt) (candidateItems st)) st 0).2 : Int)) := rfl
  rw [hdef1, hdef2]
  refine ⟨by omega, hspec.2.1, ?_⟩
  intro hb
  have hle := of_decide_eq_true hb
  omega

/-- Claim C3: the 4 MiB ceiling is an invariant of every successful write.
If the measured usage is at most `maxStorageSize` and `safeSetItem` succeeds,
the resulting usage is still at most `maxStorageSize`; moreover, whenever the
incoming record would overflow the ceiling, the write proceeds only after an
eviction requesting exactly `(record length) - (ceiling - current usage)`
bytes has reported success, and that eviction freed at least that many
bytes. -/
theorem safeSetItem_ceiling_invariant (dt : String → Int) (st : Store)
    (key : String) (v : StoredVal) (st' : Store)
    (hnd : (keysOf st).Nodup)
    (hstart : usage st ≤ maxStorageSize)
    (hok : safeSetItem dt st key v = Except.ok st') :
    usage st' ≤ maxStorageSize ∧
      (¬ (usage st + (v.len + key.length) ≤ maxStorageSize) →
        (cleanupOldData dt st
            (((v.len + key.length : Nat) : Int) -
              ((maxStorageSize : Int) - (usage st : Int)))).1 = true ∧
          (((v.len + key.length : Nat) : Int) -
              ((maxStorageSize : Int) - (usage st : Int))) +
            (usage (cleanupOldData dt st
              (((v.len + key.length : Nat) : Int) -
                ((maxStorageSize : Int) - (usage st : Int)))).2 : Int) ≤
            (usage st : Int)) := by
  simp only [safeSetItem] at hok
  by_cases hspace : usage st + (v.len + key.length) ≤ maxStorageSize
  · rw [if_pos hspace] at hok
    simp only [Except.ok.injEq] at hok
    subst hok
    refine ⟨?_, fun h => absurd hspace h⟩
    have := usage_setItem_le st key v
    omega
  · rw [if_neg hspace] at hok
    by_cases hcl :
        (cleanupOldData dt st
          (((v.len + key.length : Nat) : Int) -
            ((maxStorageSize : Int) - (usage st : Int)))).1 = true
    · rw [if_pos hcl] at hok
      simp only [Except.ok.injEq] at hok
      subst hok
      have hclean := cleanupOldData_spec dt st
        (((v.len + key.length : Nat) : Int) -
          ((maxStorageSize : Int) - (usage st : Int))) hnd
      have hfree := hclean.2.2 hcl
      have hset := usage_setItem_le
        (cleanupOldData dt st
          (((v.len + key.length : Nat) : Int) -
            ((maxStorageSize : Int) - (usage st : Int)))).2 key v
      refine ⟨?_, fun _ => ⟨hcl, hfree⟩⟩
      omega
    · rw [if_neg hcl] at hok
      cases hok

/-- Witness for C3 at a concrete input: writing a 1-byte value under key
`k` into the empty store succeeds and keeps usage under the ceiling. -/
theorem safeSetItem_ceiling_invariant_witness :
    usage [("k", ({ len := 1, parsed := ParsedVal.invalid } : StoredVal))] ≤
      maxStorageSize :=
  (safeSetItem_ceiling_invariant (fun _ => 0) [] "k"
    { len := 1, parsed := ParsedVal.invalid }
    [("k", { len := 1, parsed := ParsedVal.invalid })]
    (by simp [keysOf]) (by decide) (by rfl)).1

theorem saveTimeline_eq (dt : String → Int) (st : Store)
    (t : TimelineComparison) (now : String) :
    saveTimeline dt st t now =
      if timelineLatin1 { t with updatedAt := now } then
        match safeSetItem dt st t.id
          { len := serLen { t with updatedAt := now }
            parsed := ParsedVal.timeline { t with updatedAt := now } } with
        | Except.ok st' => Except.ok ({ t with updatedAt := now }, st')
        | Except.error e =>
          Except.error
            (if e = "STORAGE_QUOTA_EXCEEDED" then quotaUserMessage else e)
      else Except.error "InvalidCharacterError" := rfl

theorem safeSetItem_error_quota (dt : String → Int) (st : Store)
    (key' : String) (v' : StoredVal) (e : String)
    (he : safeSetItem dt st key' v' = Except.error e) :
    e = "STORAGE_QUOTA_EXCEEDED" := by
  simp only [safeSetItem] at he
  by_cases hspace : usage st + (v'.len + key'.length) ≤ maxStorageSize
  · rw [if_pos hspace] at he
    cases he
  · rw [if_neg hspace] at he
    by_cases hcl :
        (cleanupOldData dt st
          (((v'.len + key'.length : Nat) : Int) -
            ((maxStorageSize : Int) - (usage st : Int)))).1 = true
    · rw [if_pos hcl] at he
      cases he
    · rw [if_neg hcl] at he
      injection he with h
      exact h.symm

/-- Claim C4: when eviction cannot free the requested headroom, the write
fails with the distinct `STORAGE_QUOTA_EXCEEDED` error and nothing is
stored; that is the only write error the facade produces; and
`saveTimeline` maps exactly that write error — and no other outcome — to
the dedicated user-facing storage-quota message.  (The only other way
`saveTimeline` can fail is the pre-write `btoa` size-log of line 88
throwing `InvalidCharacterError` on non-Latin-1 content, which happens
before any write and is never mapped to the quota message.) -/
theorem quota_error_propagation (dt : String → Int) (st : Store) (key : String)
    (v : StoredVal) (t : TimelineComparison) (now : String) :
    (safeSetItem dt st key v = Except.error "STORAGE_QUOTA_EXCEEDED" ↔
      ¬ (usage st + (v.len + key.length) ≤ maxStorageSize) ∧
        (cleanupOldData dt st
          (((v.len + key.length : Nat) : Int) -
            ((maxStorageSize : Int) - (usage st : Int)))).1 = false) ∧
      (∀ e, safeSetItem dt st key v = Except.error e →
        e = "STORAGE_QUOTA_EXCEEDED") ∧
      (saveTimeline dt st t now = Except.error quotaUserMessage ↔
        timelineLatin1 { t with updatedAt := now } = true ∧
          safeSetItem dt st t.id
            { len := serLen { t with updatedAt := now }
              parsed := ParsedVal.timeline { t with updatedAt := now } } =
            Except.error "STORAGE_QUOTA_EXCEEDED") ∧
      (∀ e, saveTimeline dt st t now = Except.error e →
        (e = quotaUserMessage ∧
          safeSetItem dt st t.id
            { len := serLen { t with updatedAt := now }
              parsed := ParsedVal.timeline { t with updatedAt := now } } =
            Except.error "STORAGE_QUOTA_EXCEEDED") ∨
        (e = "InvalidCharacterError" ∧
          timelineLatin1 { t with updatedAt := now } = false)) := by
  refine ⟨?_, fun e => safeSetItem_error_quota dt st key v e, ?_, ?_⟩
  · simp only [safeSetItem]
    by_cases hspace : usage st + (v.len + key.length) ≤ maxStorageSize
    · rw [if_pos hspace]
      constructor
      · intro h
        cases h
      · rintro ⟨hn, -⟩
        exact absurd hspace hn
    · rw [if_neg hspace]
      by_cases hcl :
          (cleanupOldData dt st
            (((v.len + key.length : Nat) : Int) -
              ((maxStorageSize : Int) - (usage st : Int)))).1 = true
      · rw [if_pos hcl]
        constructor
        · intro h
          cases h
        · rintro ⟨-, hfl⟩
          rw [hcl] at hfl
          cases hfl
      · rw [if_neg hcl]
        simp only [Bool.not_eq_true] at hcl
        exact iff_of_true rfl ⟨hspace, hcl⟩
  · rw [saveTimeline_eq]
    by_cases hl : timelineLatin1 { t with updatedAt := now } = true
    · rw [if_pos hl]
      cases hres : safeSetItem dt st t.id
          { len := serLen { t with updatedAt := now }
            parsed := ParsedVal.timeline { t with updatedAt := now } } with
      | ok st' =>
        constructor
        · intro h
          cases h
        · rintro ⟨-, h⟩
          cases h
      | error e =>
        have he := safeSetItem_error_quota dt st _ _ e hres
        subst he
        constructor
        · intro _
          exact ⟨hl, rfl⟩
        · intro _
          show Except.error
              (if ("STORAGE_QUOTA_EXCEEDED" : String) = "STORAGE_QUOTA_EXCEEDED"
                then quotaUserMessage else "STORAGE_QUOTA_EXCEEDED") =
            Except.error quotaUserMessage
          rw [if_pos rfl]
    · rw [if_neg hl]
      constructor
      · intro h
        injection h with h2
        exact absurd h2 (by decide)
      · rintro ⟨h1, -⟩
        exact absurd h1 hl
  · intro e he
    rw [saveTimeline_eq] at he
    by_cases hl : timelineLatin1 { t with updatedAt := now } = true
    · rw [if_pos hl] at he
      revert he
      cases hres : safeSetItem dt st t.id
          { len := serLen { t with updatedAt := now }
            parsed := ParsedVal.timeline { t with updatedAt := now } } with
      | ok st' =>
        intro he
        cases he
      | error e2 =>
        intro he
        have he2 := safeSetItem_error_quota dt st _ _ e2 hres
        subst he2
        injection he with h
        rw [if_pos rfl] at h
        exact Or.inl ⟨h.symm, rfl⟩
    · rw [if_neg hl] at he
      injection he with h
      refine Or.inr ⟨h.symm, ?_⟩
      simp only [Bool.not_eq_true] at hl
      exact hl

/-- A store holding a single 4194300-byte record under the non-entity key
`junk`: usage is exactly the 4 MiB ceiling and eviction has no candidates. -/
def junkFullStore : Store := [("junk", { len := 4194300, parsed := ParsedVal.invalid })]

/-- A minimal timeline used in concrete scenarios. -/
def smallTimeline : TimelineComparison :=
  { id := "timeline-w"
    title := none
    screenshots := []
    reports := []
    feedback := []
    createdAt := "C"
    updatedAt := "U" }

/-- Witness for C4 at a concrete input: on a store filled to the ceiling by
a non-entity record, `saveTimeline` fails with exactly the user-facing
quota message. -/
theorem quota_error_propagation_witness :
    saveTimeline (fun _ => 0) junkFullStore smallTimeline "N" =
      Except.error quotaUserMessage :=
  (quota_error_propagation (fun _ => 0) junkFullStore "timeline-w"
    { len := 1, parsed := ParsedVal.invalid } smallTimeline "N").2.2.1.mpr
    ⟨by rfl, by rfl⟩

theorem jsSortBy_sorted_leItem (dt : String → Int) (l : List EvictItem) :
    (jsSortBy (leItem dt) l).Pairwise fun a b => leItem dt a b = true := by
  induction l with
  | nil => simp [jsSortBy]
  | cons a t ih =>
    exact insSorted_pairwise (leItem dt) (leItem_total dt)
      (leItem_trans dt) a (jsSortBy (leItem dt) t) ih

/-- Timestamp map used in the eviction scenarios (models
`new Date(s).getTime()` on the three dates involved). -/
def scenarioDt : String → Int := fun s =>
  if s = "2024-01-01" then 1
  else if s = "2024-01-02" then 2
  else if s = "2024-01-03" then 3
  else 0

/-- A stored comparison record of a given timestamp whose serialized length
is 388 bytes, so that a `comparison-X` key (12 chars) makes a 400-byte
record. -/
def rec400 (ts : String) : StoredVal :=
  { len := 388
    parsed := ParsedVal.comparison
      { id := "x"
        imageA := { name := "", data := "", type := "", size := 0 }
        imageB := { name := "", data := "", type := "", size := 0 }
        comparison := { changes := [], implication := "", psychologyInsights := none }
        timestamp := ts
        feedback := none } }

/-- Three timestamped 400-byte records: total usage 1200 bytes (100% of a
hypothetical 1 KB-scale namespace, but far below the code's 4 MiB ceiling). -/
def threeRecStore : Store :=
  [("comparison-a", rec400 "2024-01-01"),
   ("comparison-b", rec400 "2024-01-02"),
   ("comparison-c", rec400 "2024-01-03")]

/-- The 500-byte incoming record of the scenarios: key `timeline-n`
(10 chars) plus a 490-byte value. -/
def newVal500 : StoredVal := { len := 490, parsed := ParsedVal.invalid }

/-- Counterexample to claim C2 as stated: at the 1 KB scale the code does
not evict at all.  With the store at 1200 bytes (100% of a 1 KB ceiling)
holding the three timestamped 400-byte records, the 500-byte write succeeds
without deleting anything — both oldest records are still present —
because the code's ceiling is the fixed 4 MiB, not 1 KB. -/
theorem cleanup_1kb_scenario_no_eviction :
    safeSetItem scenarioDt threeRecStore "timeline-n" newVal500 =
      Except.ok (threeRecStore ++ [("timeline-n", newVal500)]) ∧
      getItem (threeRecStore ++ [("timeline-n", newVal500)]) "comparison-a" =
        some (rec400 "2024-01-01") ∧
      getItem (threeRecStore ++ [("timeline-n", newVal500)]) "comparison-b" =
        some (rec400 "2024-01-02") := by
  refine ⟨by rfl, by rfl, by rfl⟩

/-- The 4 MiB-scale version of the eviction scenario: a non-entity filler
record brings usage to exactly the 4 MiB ceiling, and the only entity
records are the three timestamped 400-byte ones. -/
def fullScaleStore : Store :=
  ("junk", { len := 4193100, parsed := ParsedVal.invalid }) :: threeRecStore

/-- Claim C2, amended: `cleanupOldData` deletes entity-prefixed records in
ascending timestamp order (the candidate list is stably sorted ascending),
accumulating freed bytes and stopping as soon as the freed total reaches the
requested headroom or no candidates remain, and returns whether the request
was satisfied; the concrete scenario holds at the code's fixed 4 MiB
ceiling: with usage at 100% of 4 MiB and three timestamped 400-byte entity
records, a write needing 500 more bytes evicts exactly the two oldest
records (freeing 800 bytes) and then succeeds. -/
theorem eviction_policy (dt : String → Int) (st : Store) (need : Int) :
    (cleanupOldData dt st need =
      (decide (need ≤
          (sizeSum (claimedTaken need
            (jsSortBy (leItem dt) (candidateItems st))) : Int)),
        removeKeys st
          ((claimedTaken need (jsSortBy (leItem dt) (candidateItems st))).map
            EvictItem.key))) ∧
      (jsSortBy (leItem dt) (candidateItems st)).Pairwise
        (fun a b => leItem dt a b = true) ∧
      usage fullScaleStore = maxStorageSize ∧
      cleanupOldData scenarioDt fullScaleStore 500 =
        (true,
          [("junk", { len := 4193100, parsed := ParsedVal.invalid }),
           ("comparison-c", rec400 "2024-01-03")]) ∧
      safeSetItem scenarioDt fullScaleStore "timeline-n" newVal500 =
        Except.ok
          [("junk", { len := 4193100, parsed := ParsedVal.invalid }),
           ("comparison-c", rec400 "2024-01-03"),
           ("timeline-n", newVal500)] := by
  refine ⟨cleanupOldData_eq_claimed dt st need,
    jsSortBy_sorted_leItem dt (candidateItems st), by rfl, by rfl, by rfl⟩

/-- Claim C10: usage accounting and eviction disagree on scope.
`getCurrentStorageUsage` counts every key, but eviction never touches a key
without the `timeline-`/`comparison-` prefix (frame property); consequently
a store filled to the ceiling by a non-entity record makes every write fail
with the quota error even though deleting that record would have freed the
space. -/
theorem usage_eviction_scope_mismatch :
    (∀ (dt : String → Int) (st : Store) (need : Int) (k : String),
        strStarts k "timeline-" = false → strStarts k "comparison-" = false →
        getItem (cleanupOldData dt st need).2 k = getItem st k) ∧
      usage junkFullStore = maxStorageSize ∧
      safeSetItem (fun _ => 0) junkFullStore "timeline-x"
          { len := 490, parsed := ParsedVal.invalid } =
        Except.error "STORAGE_QUOTA_EXCEEDED" ∧
      removeItem junkFullStore "junk" = [] ∧
      safeSetItem (fun _ => 0) (removeItem junkFullStore "junk") "timeline-x"
          { len := 490, parsed := ParsedVal.invalid } =
        Except.ok [("timeline-x", { len := 490, parsed := ParsedVal.invalid })] := by
  refine ⟨?_, by rfl, by rfl, by rfl, by rfl⟩
  intro dt st need k h1 h2
  have hdef : (cleanupOldData dt st need).2 =
      (evictLoop need (jsSortBy (leItem dt) (candidateItems st)) st 0).1 := rfl
  rw [hdef]
  apply evictLoop_frame
  intro i hi
  have hi' := (jsSortBy_perm (leItem dt) (candidateItems st)).mem_iff.mp hi
  obtain ⟨kv, _, hio, hp⟩ := mem_candidateItems st i hi'
  intro he
  have hk : kv.1 = k := by
    rw [hio] at he
    exact he
  rw [hk, h1, h2] at hp
  simp at hp

/-- Witness for C10's frame property at a concrete input: eviction leaves
the non-entity key `junk` untouched. -/
theorem usage_eviction_scope_mismatch_witness :
    getItem (cleanupOldData (fun _ => 0) junkFullStore 500).2 "junk" =
      getItem junkFullStore "junk" :=
  usage_eviction_scope_mismatch.1 (fun _ => 0) junkFullStore 500 "junk"
    (by rfl) (by rfl)

/-- Claim C9: the two delete operations build their keys asymmetrically.
`deleteTimeline id` removes exactly the key `id` itself (timeline ids
already embed the `timeline-` prefix, so a bare uuid removes nothing),
`deleteComparison id` removes exactly `comparison- ++ id`, and both return
`true` whether or not the record exists. -/
theorem delete_key_asymmetry :
    (∀ (st : Store) (id : String),
        (deleteTimeline st id).1 = true ∧ (deleteComparison st id).1 = true) ∧
      (∀ (st : Store) (id k : String),
        getItem (deleteTimeline st id).2 k =
          if k = id then none else getItem st k) ∧
      (∀ (st : Store) (id k : String),
        getItem (deleteComparison st id).2 k =
          if k = "comparison-" ++ id then none else getItem st k) ∧
      (∀ (compress : String → Option String) (uuid now : String)
          (c : ComparisonResult) (title : Option String)
          (t : TimelineComparison),
        createTimelineFromComparison compress uuid now c title = Except.ok t →
          t.id = "timeline-" ++ uuid) ∧
      (∀ (st : Store) (u : String),
        getItem (deleteTimeline st u).2 ("timeline-" ++ u) =
          getItem st ("timeline-" ++ u)) := by
  refine ⟨fun st id => ⟨rfl, rfl⟩,
    fun st id k => getItem_removeItem st id k,
    fun st id k => getItem_removeItem st ("comparison-" ++ id) k, ?_, ?_⟩
  · intro compress uuid now c title t h
    unfold createTimelineFromComparison at h
    split at h
    · cases h
    · split at h
      · injection h with h2
        rw [← h2]
      · cases h
  · intro st u
    have hdt : (deleteTimeline st u).2 = removeItem st u := rfl
    rw [hdt, getItem_removeItem]
    rw [if_neg ?_]
    intro e
    have hlen := congrArg String.length e
    rw [String.length_append] at hlen
    have h9 : ("timeline-" : String).length = 9 := rfl
    rw [h9] at hlen
    omega

/-- A small concrete comparison used by the witnesses. -/
def tinyComparison : ComparisonResult :=
  { id := "c"
    imageA := { name := "a", data := "A", type := "p", size := 1 }
    imageB := { name := "b", data := "B", type := "p", size := 1 }
    comparison := { changes := ["d"], implication := "i", psychologyInsights := none }
    timestamp := "T"
    feedback := none }

/-- The timeline `createTimelineFromComparison` builds from
`tinyComparison` with the identity compressor, uuid `u` and clock `N`. -/
def tinyTimeline : TimelineComparison :=
  { id := "timeline-u"
    title := none
    screenshots :=
      [{ id := "screenshot-c-a", name := "a", data := "A", type := "image/jpeg",
         size := 0, timestamp := "T", order := 0 },
       { id := "screenshot-c-b", name := "b", data := "B", type := "image/jpeg",
         size := 0, timestamp := "T", order := 1 }]
    reports :=
      [{ id := "report-c", type := ReportType.initial,
         fromScreenshotId := some "screenshot-c-a",
         toScreenshotId := "screenshot-c-b", changes := ["d"],
         implication := "i", strategicView := none,
         psychologyInsights := none, timestamp := "T" }]
    feedback := []
    createdAt := "N"
    updatedAt := "N" }

/-- Witness for C9's conjunct about timeline ids embedding the prefix. -/
theorem delete_key_asymmetry_witness :
    tinyTimeline.id = "timeline-" ++ "u" :=
  delete_key_asymmetry.2.2.2.1 (fun s => some s) "u" "N" tinyComparison none
    tinyTimeline (by rfl)

/-- Claim C8: `addScreenshotToTimeline` on an id with no stored record
returns `none` without throwing — whatever the screenshot argument is —
and returns the storage state unchanged. -/
theorem addScreenshot_missing_timeline (compress : String → Option String)
    (uuid now : String) (dt : String → Int) (st : Store) (timelineId : String)
    (shot : RawScreenshot) (habsent : getItem st timelineId = none) :
    addScreenshotToTimeline compress uuid now dt st timelineId shot =
      Except.ok (none, st) := by
  unfold addScreenshotToTimeline getTimeline
  rw [habsent]

/-- A raw screenshot argument used by the C8 witness. -/
def tinyShot : RawScreenshot :=
  { id := none, name := "n", data := "D", type := "p", size := 1 }

/-- Witness for C8 on the empty store. -/
theorem addScreenshot_missing_timeline_witness :
    addScreenshotToTimeline (fun s => some s) "u" "N" (fun _ => 0) []
        "timeline-z" tinyShot = Except.ok (none, []) :=
  addScreenshot_missing_timeline (fun s => some s) "u" "N" (fun _ => 0) []
    "timeline-z" tinyShot (by rfl)

theorem getItem_safeSetItem_ok (dt : String → Int) (st : Store) (key : String)
    (v : StoredVal) (st' : Store)
    (h : safeSetItem dt st key v = Except.ok st') :
    getItem st' key = some v := by
  simp only [safeSetItem] at h
  by_cases hspace : usage st + (v.len + key.length) ≤ maxStorageSize
  · rw [if_pos hspace] at h
    simp only [Except.ok.injEq] at h
    subst h
    exact getItem_setItem_self st key v
  · rw [if_neg hspace] at h
    by_cases hcl : (cleanupOldData dt st (((v.len + key.length : Nat) : Int) -
        ((maxStorageSize : Int) - (usage st : Int)))).1 = true
    · rw [if_pos hcl] at h
      simp only [Except.ok.injEq] at h
      subst h
      exact getItem_setItem_self _ key v
    · rw [if_neg hcl] at h
      cases h

/-- Claim C1: for a valid comparison successfully turned into a timeline,
whenever `saveTimeline` completes (whether the write fit directly or
eviction freed the space, and the serialized content survived the `btoa`
call on line 88), re-reading the store under the new id yields the saved
timeline, which has exactly two screenshots of `order` 0 and 1 and exactly
one report of kind `initial` whose `toScreenshotId` is the second
screenshot's id. -/
theorem create_save_get_roundtrip (compress : String → Option String)
    (uuid now nowSave : String) (dt : String → Int) (st : Store)
    (c : ComparisonResult) (title : Option String) (t t' : TimelineComparison)
    (st' : Store)
    (hc : createTimelineFromComparison compress uuid now c title = Except.ok t)
    (hs : saveTimeline dt st t nowSave = Except.ok (t', st')) :
    t' = { t with updatedAt := nowSave } ∧
      getTimeline st' t.id = some t' ∧
      ∃ s0 s1 r,
        t'.screenshots = [s0, s1] ∧ s0.order = 0 ∧ s1.order = 1 ∧
        t'.reports = [r] ∧ r.type = ReportType.initial ∧
        r.toScreenshotId = s1.id := by
  rw [saveTimeline_eq] at hs
  by_cases hl : timelineLatin1 { t with updatedAt := nowSave } = true
  · rw [if_pos hl] at hs
    revert hs
    cases hres : safeSetItem dt st t.id
        { len := serLen { t with updatedAt := nowSave }
          parsed := ParsedVal.timeline { t with updatedAt := nowSave } } with
    | error e => intro hs; cases hs
    | ok stw =>
      intro hs
      injection hs with hp
      injection hp with h1 h2
      subst h1
      subst h2
      refine ⟨rfl, ?_, ?_⟩
      · have hget := getItem_safeSetItem_ok dt st t.id _ _ hres
        unfold getTimeline
        rw [hget]
      · unfold createTimelineFromComparison at hc
        split at hc
        · cases hc
        · split at hc
          · injection hc with h3
            subst h3
            exact ⟨_, _, _, rfl, rfl, rfl, rfl, rfl, rfl⟩
          · cases hc
  · rw [if_neg hl] at hs
    cases hs

/-- The store state after the C1 witness save of `tinyTimeline` into the
empty store. -/
def tinyStoreAfter : Store :=
  [("timeline-u",
    { len := serLen { tinyTimeline with updatedAt := "M" }
      parsed := ParsedVal.timeline { tinyTimeline with updatedAt := "M" } })]

/-- Witness for C1 with the tiny comparison, on the empty store. -/
theorem create_save_get_roundtrip_witness :
    ({ tinyTimeline with updatedAt := "M" } : TimelineComparison) =
        { tinyTimeline with updatedAt := "M" } ∧
      getTimeline tinyStoreAfter tinyTimeline.id =
        some { tinyTimeline with updatedAt := "M" } ∧
      ∃ s0 s1 r,
        ({ tinyTimeline with updatedAt := "M" } :
            TimelineComparison).screenshots = [s0, s1] ∧
        s0.order = 0 ∧ s1.order = 1 ∧
        ({ tinyTimeline with updatedAt := "M" } :
            TimelineComparison).reports = [r] ∧
        r.type = ReportType.initial ∧ r.toScreenshotId = s1.id :=
  create_save_get_roundtrip (fun s => some s) "u" "N" "M" (fun _ => 0) []
    tinyComparison none tinyTimeline { tinyTimeline with updatedAt := "M" }
    tinyStoreAfter (by rfl) (by rfl)

/-! ## Text normalizer (src/unnamed/part_000)

JS string primitives used by the normalizer, modelled on the character
lists underlying Lean strings. -/

/-- The characters matched by the JS regex class `\s` (ECMAScript
WhiteSpace and LineTerminator). -/
def isJsWs (c : Char) : Bool :=
  c.toNat = 32 || (9 ≤ c.toNat && c.toNat ≤ 13) || c.toNat = 0xa0 ||
    c.toNat = 0x1680 || (0x2000 ≤ c.toNat && c.toNat ≤ 0x200a) ||
    c.toNat = 0x2028 || c.toNat = 0x2029 || c.toNat = 0x202f ||
    c.toNat = 0x205f || c.toNat = 0x3000 || c.toNat = 0xfeff

/-- The JS line terminators (`.` never matches these; `^`/`$` in multiline
mode anchor around them). -/
def isLineTerm (c : Char) : Bool :=
  c.toNat = 10 || c.toNat = 13 || c.toNat = 0x2028 || c.toNat = 0x2029

/-- JS `String.prototype.trim` (strips `\s` from both ends). -/
def jsTrimList (l : List Char) : List Char :=
  ((l.dropWhile isJsWs).reverse.dropWhile isJsWs).reverse

/-- JS `s.trim()`. -/
def jsTrim (s : String) : String := String.mk (jsTrimList s.data)

/-- JS `s.toLowerCase()` (ASCII case folding; the repository's principle
names and chunks are ASCII). -/
def jsToLower (s : String) : String := String.map Char.toLower s

/-- Does `hay` start with `needle`? -/
def isPrefixL : List Char → List Char → Bool
  | _, [] => true
  | [], _ :: _ => false
  | h :: t, n :: m => h == n && isPrefixL t m

/-- Does `hay` contain `needle` as a contiguous substring?  Models JS
`String.prototype.includes` (the empty needle is found everywhere). -/
def hasSubL : List Char → List Char → Bool
  | [], needle => needle.isEmpty
  | h :: t, needle => isPrefixL (h :: t) needle || hasSubL t needle

/-- JS `s.includes(search)`. -/
def jsIncludes (s search : String) : Bool := hasSubL s.data search.data

/-- `validatePrincipleInChunks` (src/unnamed/part_000 lines 112-122):
normalize the principle (lower-case, trim) and accept iff some chunk,
lower-cased, contains it. -/
def validatePrincipleInChunks (principle : String)
    (retrievedChunks : List String) : Bool :=
  let normalizedPrinciple := jsTrim (jsToLower principle)
  retrievedChunks.any fun chunk =>
    jsIncludes (jsToLower chunk) normalizedPrinciple

/-- `filterValidatedInsights` (src/unnamed/part_000 lines 128-143); the
`console.warn` diagnostic has no effect on the result. -/
def filterValidatedInsights (insights : List FormattedInsight)
    (retrievedChunks : List String) : List FormattedInsight :=
  insights.filter fun insight =>
    validatePrincipleInChunks insight.principle retrievedChunks

/-- Claim C6: `filterValidatedInsights` returns exactly the insights whose
principle (lower-cased, trimmed) occurs case-insensitively as a substring
of at least one retrieved chunk — in their original order (the result is a
sublist) and with every field unmodified (the elements are the originals);
every insight with no such match is excluded. -/
theorem grounding_filter (insights : List FormattedInsight)
    (chunks : List String) :
    List.Sublist (filterValidatedInsights insights chunks) insights ∧
      ∀ i, i ∈ filterValidatedInsights insights chunks ↔
        i ∈ insights ∧
          ∃ ch ∈ chunks,
            jsIncludes (jsToLower ch) (jsTrim (jsToLower i.principle)) = true := by
  refine ⟨List.filter_sublist _, ?_⟩
  intro i
  unfold filterValidatedInsights
  rw [List.mem_filter]
  unfold validatePrincipleInChunks
  rw [List.any_eq_true]

/-! ## stripMarkdown (src/unnamed/part_000 lines 22-91)

Each JS `String.prototype.replace(regex, ...)` call with a global regex is
modelled by a left-to-right scanner (`gsubFuel`): at each position the
matcher either reports a match (replacement text plus number of characters
consumed, at least one) or the scanner emits the current character and
advances.  Matchers receive the previous character so that the `m`-flag
anchors `^` can be evaluated.  Each matcher's doc comment names the regex
it implements; the lazy (`+?`, `*?`) sub-patterns reduce to
earliest-occurrence searches, spelled out per matcher. -/

/-- The backtick character (0x60). -/
def tick : Char := Char.ofNat 96

/-- Step 1 of `stripMarkdown`: the unescape pass
`text.replace(/\\(\*|_|`|~|\[|\]|\(|\)|\\)/g, '$1')`. -/
def unescapeMd : List Char → List Char
  | [] => []
  | '\\' :: c :: rest =>
    if c = '*' ∨ c = '_' ∨ c = tick ∨ c = '~' ∨ c = '[' ∨ c = ']' ∨
        c = '(' ∨ c = ')' ∨ c = '\\' then
      c :: unescapeMd rest
    else '\\' :: unescapeMd (c :: rest)
  | c :: rest => c :: unescapeMd rest

/-- Global-replace scanner.  `m prev s` reports `(replacement, consumed)`;
a match must consume at least one character (all the regexes below do).
Fuel is the list length: every step consumes at least one character. -/
def gsubFuel (m : Option Char → List Char → Option (List Char × Nat)) :
    Nat → Option Char → List Char → List Char
  | _, _, [] => []
  | 0, _, s => s
  | fuel + 1, prev, c :: cs =>
    match m prev (c :: cs) with
    | some (rep, k) =>
      if k = 0 then c :: gsubFuel m fuel (some c) cs
      else rep ++ gsubFuel m fuel (some ((c :: cs).getD (k - 1) c)) (cs.drop (k - 1))
    | none => c :: gsubFuel m fuel (some c) cs

/-- Runs one global replace over the whole string. -/
def applyRule (m : Option Char → List Char → Option (List Char × Nat))
    (s : List Char) : List Char :=
  gsubFuel m s.length none s

/-- Is this position a `^` anchor point under the `m` flag (string start or
right after a line terminator)? -/
def atLineStart : Option Char → Bool
  | none => true
  | some c => isLineTerm c

/-- Matches `\s+(.+)$` (with the `m` flag) at the head of `s`; returns the
consumed length and the `$1` capture.  The greedy `\s+` takes the maximal
whitespace run; if a non-whitespace character follows, `.+` is the
non-terminator run from there to the line end.  If the whole suffix is
whitespace, backtracking hands the latest non-terminator character run to
`.+` (keeping at least one character in `\s+`). -/
def wsDotMatch (s : List Char) : Option (Nat × List Char) :=
  let j := (s.takeWhile isJsWs).length
  if j = 0 then none
  else if j < s.length then
    let content := (s.drop j).takeWhile fun c => !(isLineTerm c)
    some (j + content.length, content)
  else
    match (s.reverse.findIdx? fun c => !(isLineTerm c)) with
    | none => none
    | some r =>
      let k := s.length - 1 - r
      if k = 0 then none
      else
        let content := (s.drop k).takeWhile fun c => !(isLineTerm c)
        some (k + content.length, content)

/-- `^#{1,6}\s+(.+)$` (gm) → `$1`: one to six `#` (a longer run cannot
backtrack into `\s+`, so it fails), then `wsDotMatch`. -/
def mHeading (prev : Option Char) (s : List Char) : Option (List Char × Nat) :=
  if !(atLineStart prev) then none
  else
    let hs := (s.takeWhile fun c => c == '#').length
    if 1 ≤ hs ∧ hs ≤ 6 then
      match wsDotMatch (s.drop hs) with
      | some (consumed, content) => some (content, hs + consumed)
      | none => none
    else none

/-- `^>\s+(.+)$` (gm) → `$1`. -/
def mBlockquote (prev : Option Char) (s : List Char) : Option (List Char × Nat) :=
  if !(atLineStart prev) then none
  else
    match s with
    | '>' :: rest =>
      match wsDotMatch rest with
      | some (consumed, content) => some (content, 1 + consumed)
      | none => none
    | _ => none

/-- Lazy search for the closer of `cc(.+?)cc`: the least `q ≥ 1` with
`cc` at offset `q`, failing as soon as a line terminator would enter the
content (`.` does not match terminators). -/
def findDouble (c : Char) : List Char → Nat → Option Nat
  | a :: b :: rest, q =>
    if 1 ≤ q ∧ a = c ∧ b = c then some q
    else if isLineTerm a then none
    else findDouble c (b :: rest) (q + 1)
  | _, _ => none

/-- `\*\*(.+?)\*\*`, `__(.+?)__` and `~~(.+?)~~` (g) → `$1`, for the given
delimiter character doubled. -/
def mDoubleDelim (c : Char) (s : List Char) : Option (List Char × Nat) :=
  match s with
  | a :: b :: rest =>
    if a = c ∧ b = c then
      match findDouble c rest 0 with
      | some q => some (rest.take q, 2 + q + 2)
      | none => none
    else none
  | _ => none

/-- `\*([^*]+?)\*`, `_([^_]+?)_` and `` `([^`]+?)` `` (g) → `$1`: since the
content class excludes the delimiter, the closer is simply its first later
occurrence, and the content (at least one character) may span lines. -/
def mSingleDelim (c : Char) (s : List Char) : Option (List Char × Nat) :=
  match s with
  | a :: b :: rest =>
    if a = c ∧ b ≠ c then
      match (b :: rest).findIdx? fun x => x == c with
      | some i => some ((b :: rest).take i, 1 + i + 1)
      | none => none
    else none
  | _ => none

/-- Lazy search for the earliest triple of `c` (offset of its first
character; `[\s\S]*?` puts no constraint on the skipped content). -/
def findTriple (c : Char) : List Char → Option Nat
  | a :: b :: d :: rest =>
    if a = c ∧ b = c ∧ d = c then some 0
    else (findTriple c (b :: d :: rest)).map (· + 1)
  | _ => none

/-- ``` /```[\s\S]*?```/ ``` (g) → removed. -/
def mCodeBlock (s : List Char) : Option (List Char × Nat) :=
  match s with
  | a :: b :: d :: rest =>
    if a = tick ∧ b = tick ∧ d = tick then
      match findTriple tick rest with
      | some q => some ([], 3 + q + 3)
      | none => none
    else none
  | _ => none

/-- `\[([^\]]+?)\]\(([^\))]+?)\)`-shaped rule `\[([^\]]+?)\]\([^\)]+?\)`
(g) → `$1`: bracketed text (nonempty, no `]`), then `(...)` (nonempty, no
`)`). -/
def mLink (s : List Char) : Option (List Char × Nat) :=
  match s with
  | '[' :: rest =>
    match rest.findIdx? fun x => x == ']' with
    | some i =>
      if 1 ≤ i then
        match rest.drop (i + 1) with
        | '(' :: rest2 =>
          match rest2.findIdx? fun x => x == ')' with
          | some j => if 1 ≤ j then some (rest.take i, i + j + 4) else none
          | none => none
        | _ => none
      else none
    | none => none
  | _ => none

/-- `\[([^\]]+?)\]\[[^\]]+?\]` (g) → `$1`. -/
def mRefLink (s : List Char) : Option (List Char × Nat) :=
  match s with
  | '[' :: rest =>
    match rest.findIdx? fun x => x == ']' with
    | some i =>
      if 1 ≤ i then
        match rest.drop (i + 1) with
        | '[' :: rest2 =>
          match rest2.findIdx? fun x => x == ']' with
          | some j => if 1 ≤ j then some (rest.take i, i + j + 4) else none
          | none => none
        | _ => none
      else none
    | none => none
  | _ => none

/-- `!\[([^\]]*?)\]\([^\)]+?\)` (g) → `$1` (the alt text may be empty). -/
def mImage (s : List Char) : Option (List Char × Nat) :=
  match s with
  | '!' :: '[' :: rest =>
    match rest.findIdx? fun x => x == ']' with
    | some i =>
      match rest.drop (i + 1) with
      | '(' :: rest2 =>
        match rest2.findIdx? fun x => x == ')' with
        | some j => if 1 ≤ j then some (rest.take i, i + j + 5) else none
        | none => none
      | _ => none
    | none => none
  | _ => none

/-- `<[^>]+>` (g) → removed. -/
def mHtmlTag (s : List Char) : Option (List Char × Nat) :=
  match s with
  | '<' :: rest =>
    match rest.findIdx? fun x => x == '>' with
    | some i => if 1 ≤ i then some ([], i + 2) else none
    | none => none
  | _ => none

/-- The horizontal-rule character class `[\*\-_]`. -/
def isHrChar (c : Char) : Bool := c == '*' || c == '-' || c == '_'

/-- `^[\*\-_]{3,}\s*$` (gm) → removed: a maximal run of at least three rule
characters, then greedy `\s*`; `$` sits at the end of the string or
(backtracking inside the whitespace run) at its last line terminator. -/
def mHrule (prev : Option Char) (s : List Char) : Option (List Char × Nat) :=
  if !(atLineStart prev) then none
  else
    let r := (s.takeWhile isHrChar).length
    if 3 ≤ r then
      let rest := s.drop r
      let j := (rest.takeWhile isJsWs).length
      if j = rest.length then some ([], r + j)
      else
        match ((rest.take j).reverse.findIdx? isLineTerm) with
        | some rv => some ([], r + (j - 1 - rv))
        | none => none
    else none

/-- The list-marker class `[-*+]`. -/
def isListMarker (c : Char) : Bool := c == '-' || c == '*' || c == '+'

/-- `^[\s]*[-*+]\s+` (gm) → removed: since the marker is not whitespace,
the greedy `[\s]*` cannot backtrack, so the marker must close the maximal
whitespace run and be followed by at least one whitespace character. -/
def mListMarker (prev : Option Char) (s : List Char) : Option (List Char × Nat) :=
  if !(atLineStart prev) then none
  else
    let w := (s.takeWhile isJsWs).length
    match s.drop w with
    | m0 :: rest =>
      if isListMarker m0 then
        let u := (rest.takeWhile isJsWs).length
        if 1 ≤ u then some ([], w + 1 + u) else none
      else none
    | [] => none

/-- `^[\s]*\d+\.\s+` (gm) → removed. -/
def mNumList (prev : Option Char) (s : List Char) : Option (List Char × Nat) :=
  if !(atLineStart prev) then none
  else
    let w := (s.takeWhile isJsWs).length
    let rest := s.drop w
    let d := (rest.takeWhile fun c => c.isDigit).length
    if 1 ≤ d then
      match rest.drop d with
      | '.' :: rest2 =>
        let u := (rest2.takeWhile isJsWs).length
        if 1 ≤ u then some ([], w + d + 1 + u) else none
      | _ => none
    else none

/-- `\s+` (g) → a single space. -/
def mWsCollapse (s : List Char) : Option (List Char × Nat) :=
  match s with
  | c :: _ => if isJsWs c then some ([' '], (s.takeWhile isJsWs).length) else none
  | [] => none

/-- One pass of the rewrite loop body (src/unnamed/part_000 lines 42-83),
applying the seventeen replacements in source order. -/
def stripOnce (s : List Char) : List Char :=
  applyRule (fun _ s => mWsCollapse s)
    (applyRule mNumList
      (applyRule mListMarker
        (applyRule mHrule
          (applyRule mBlockquote
            (applyRule (fun _ s => mHtmlTag s)
              (applyRule (fun _ s => mDoubleDelim '~' s)
                (applyRule (fun _ s => mImage s)
                  (applyRule (fun _ s => mRefLink s)
                    (applyRule (fun _ s => mLink s)
                      (applyRule (fun _ s => mSingleDelim tick s)
                        (applyRule (fun _ s => mCodeBlock s)
                          (applyRule (fun _ s => mSingleDelim '_' s)
                            (applyRule (fun _ s => mSingleDelim '*' s)
                              (applyRule (fun _ s => mDoubleDelim '_' s)
                                (applyRule (fun _ s => mDoubleDelim '*' s)
                                  (applyRule mHeading s))))))))))))))))

/-- The `while (result !== previousResult && iterations < MAX_ITERATIONS)`
loop (src/unnamed/part_000 lines 34-84), with the remaining iteration
budget as fuel (`MAX_ITERATIONS = 10`); also counts the iterations used. -/
def stripLoop : Nat → List Char → List Char → List Char × Nat
  | 0, _, r => (r, 0)
  | fuel + 1, prev, r =>
    if r = prev then (r, 0)
    else
      let next := stripLoop fuel r (stripOnce r)
      (next.1, next.2 + 1)

/-- Leading characters removed by the final cleanup `^[\*_~`#>\-+]+`. -/
def isLeadStripChar (c : Char) : Bool :=
  c == '*' || c == '_' || c == '~' || c == tick || c == '#' || c == '>' ||
    c == '-' || c == '+'

/-- Trailing characters removed by the final cleanup `[\*_~`]+$`. -/
def isTrailStripChar (c : Char) : Bool :=
  c == '*' || c == '_' || c == '~' || c == tick

/-- The final cleanup replace `^[\*_~`#>\-+]+|[\*_~`]+$` (g): the maximal
leading run of the first class and the maximal trailing run of the second
are removed. -/
def finalStrip (l : List Char) : List Char :=
  let l1 := l.dropWhile isLeadStripChar
  (l1.reverse.dropWhile isTrailStripChar).reverse

/-- `stripMarkdown` (src/unnamed/part_000 lines 22-91): unescape, iterate
the rule battery to a fixpoint or the 10-pass cap, then trim and strip
residual punctuation. -/
def stripMarkdown (text : String) : String :=
  if text = "" then ""
  else String.mk (finalStrip (jsTrimList (stripLoop 10 [] (unescapeMd text.data)).1))

/-- The number of rewrite passes a call to `stripMarkdown` performs. -/
def stripIterations (text : String) : Nat :=
  if text = "" then 0 else (stripLoop 10 [] (unescapeMd text.data)).2

/-- The six-character string `a\\\*b` (three backslashes between `a` and
`*b`).  Unescaping turns `\\` into `\` and `\*` into `*`, so one
application of `stripMarkdown` yields `a\*b` — which still contains the
escape sequence `\*`, so a second application unescapes again and yields
`a*b`. -/
def escSample : String := String.mk ['a', '\\', '\\', '\\', '*', 'b']

/-- Counterexample to claim C5 as stated: `stripMarkdown` is not idempotent
on every string; on `escSample` the second application differs from the
first. -/
theorem stripMarkdown_not_idempotent :
    stripMarkdown (stripMarkdown escSample) ≠ stripMarkdown escSample := by
  decide

theorem stripLoop_iterations_le (fuel : Nat) :
    ∀ prev r, (stripLoop fuel prev r).2 ≤ fuel := by
  induction fuel with
  | zero =>
    intro prev r
    simp [stripLoop]
  | succ n ih =>
    intro prev r
    by_cases h : r = prev
    · simp [stripLoop, h]
    · simp only [stripLoop, if_neg h]
      have := ih r (stripOnce r)
      omega

/-- Claim C5, amended: a single application of `stripMarkdown` always
terminates because the rewrite loop performs at most the fixed cap of 10
passes on every input; idempotence holds on the adversarial nested input
`**a*b**c*` (and on markdown-free outputs generally), but not on every
string — re-application can unescape a `\*` remaining in the first
output, as `escSample` shows. -/
theorem stripMarkdown_bounded_and_idempotent_on_nested :
    (∀ x : String, stripIterations x ≤ 10) ∧
      stripMarkdown (stripMarkdown "**a*b**c*") = stripMarkdown "**a*b**c*" := by
  refine ⟨?_, by decide⟩
  intro x
  unfold stripIterations
  by_cases h : x = ""
  · rw [if_pos h]
    omega
  · rw [if_neg h]
    exact stripLoop_iterations_le 10 [] (unescapeMd x.data)

/-! ## Compression quality search (src/lib/storage-utils.ts lines 64-74)

The loop
`while (getDataSizeKB(data) > maxSizeKB && quality > 0.1) { quality -= 0.1; re-encode }`
runs on IEEE-754 binary64 numbers.  Every finite binary64 value is a
dyadic rational; `Dy` represents the value `num * 2^(-exp)` exactly, and
`quality -= 0.1` is exact subtraction followed by rounding to the nearest
53-significant-bit value, ties to even (`dySub`) — the binary64 semantics
on the normal, non-overflowing range these values inhabit.  The canvas
encoder `canvas.toDataURL('image/jpeg', quality)` is an oracle `enc`. -/

/-- Fuel-driven base-2 logarithm (floor) on naturals. -/
def natLog2F : Nat → Nat → Nat
  | 0, _ => 0
  | f + 1, n => if n ≤ 1 then 0 else natLog2F f (n / 2) + 1

/-- A dyadic rational `num * 2^(-exp)`: the exact value of a finite
binary64 number (not necessarily in normalized form). -/
structure Dy where
  num : Int
  exp : Nat
deriving DecidableEq

/-- Value order on dyadics (JS `<` / `>` on the denoted doubles). -/
def dyLt (x y : Dy) : Bool :=
  x.num * ((2 ^ y.exp : Nat) : Int) < y.num * ((2 ^ x.exp : Nat) : Int)

/-- Value equality on dyadics. -/
def dyEq (x y : Dy) : Bool :=
  x.num * ((2 ^ y.exp : Nat) : Int) == y.num * ((2 ^ x.exp : Nat) : Int)

/-- Round the positive value `n * 2^(-k)` to 53 significant bits, ties to
even (the identity when `n` already fits in 53 bits). -/
def roundSigPos (n k : Nat) : Dy :=
  let L := natLog2F 400 n
  if L ≤ 52 then ⟨(n : Int), k⟩
  else
    let s := L - 52
    let q := n / 2 ^ s
    let r := n % 2 ^ s
    let half := 2 ^ (s - 1)
    let m := if r < half then q
      else if half < r then q + 1
      else if q % 2 = 0 then q else q + 1
    ⟨(m : Int), k - s⟩

/-- Round a dyadic to the nearest binary64 value (normal range; binary64
values themselves are fixed points). -/
def dyRound (d : Dy) : Dy :=
  if d.num = 0 then ⟨0, 0⟩
  else if d.num < 0 then
    let p := roundSigPos d.num.natAbs d.exp
    ⟨-p.num, p.exp⟩
  else roundSigPos d.num.natAbs d.exp

/-- Binary64 subtraction: exact dyadic difference, then rounding. -/
def dySub (x y : Dy) : Dy :=
  dyRound
    ⟨x.num * ((2 ^ y.exp : Nat) : Int) - y.num * ((2 ^ x.exp : Nat) : Int),
      x.exp + y.exp⟩

/-- The nearest binary64 value of the positive fraction `a / b` (for
`2^-200 < a/b < 2^52`): interprets the source's decimal literals. -/
def roundFracPos (a b : Nat) : Dy :=
  let e200 := natLog2F 400 (a * 2 ^ 200 / b)
  let s := 252 - e200
  let n := a * 2 ^ s
  let q := n / b
  let r := n % b
  let m := if 2 * r < b then q
    else if b < 2 * r then q + 1
    else if q % 2 = 0 then q else q + 1
  ⟨(m : Int), s⟩

/-- The binary64 value of the literal `0.7` (`COMPRESSION_QUALITY`,
src/lib/storage-utils.ts line 3). -/
def q07 : Dy := roundFracPos 7 10

/-- The binary64 value of the literal `0.1` (the loop's floor). -/
def q01 : Dy := roundFracPos 1 10

/-- The while loop of `compressImage` (src/lib/storage-utils.ts lines
68-71), with fuel; returns the final `compressedData` and the list of
qualities at which the loop body re-encoded, in order. -/
def compressLoop (enc : Dy → String) (maxSizeKB : Nat) :
    Nat → Dy → String → String × List Dy
  | 0, _, d => (d, [])
  | fuel + 1, quality, d =>
    if getDataSizeKB d > maxSizeKB ∧ dyLt q01 quality = true then
      let q2 := dySub quality q01
      let d2 := enc q2
      let r := compressLoop enc maxSizeKB fuel q2 d2
      (r.1, q2 :: r.2)
    else (d, [])

/-- The quality-search portion of `compressImage` (src/lib/storage-utils.ts
lines 64-74): initial encode at 0.7, then the loop.  Returns the resolved
`compressedData` and every quality an encode used.  Fuel 8 is enough for
any encoder: the quality chain reaches 2^-55 after 7 decrements and the
loop condition then fails (proved below). -/
def compressQualitySearch (enc : Dy → String) (maxSizeKB : Nat) :
    String × List Dy :=
  let d0 := enc q07
  let r := compressLoop enc maxSizeKB 8 q07 d0
  (r.1, q07 :: r.2)

/-- The chain of qualities the loop steps through while the size stays over
target: `qseq 0 = 0.7`, `qseq (n+1) = qseq n -ieee 0.1`. -/
def qseq : Nat → Dy
  | 0 => q07
  | n + 1 => dySub (qseq n) q01

set_option maxRecDepth 40000 in
theorem compressLoop_length_le (enc : Dy → String) (maxSizeKB : Nat) :
    ∀ (fuel k : Nat), k ≤ 7 → ∀ d,
      ((compressLoop enc maxSizeKB fuel (qseq k) d).2).length ≤ 7 - k := by
  intro fuel
  induction fuel with
  | zero =>
    intro k _ d
    simp [compressLoop]
  | succ n ih =>
    intro k hk d
    by_cases hcond : getDataSizeKB d > maxSizeKB ∧ dyLt q01 (qseq k) = true
    · have hk7 : k ≠ 7 := by
        intro he
        rw [he] at hcond
        exact absurd hcond.2 (by decide)
      simp only [compressLoop, if_pos hcond]
      have hq : dySub (qseq k) q01 = qseq (k + 1) := rfl
      rw [hq]
      have hrec := ih (k + 1) (by omega) (enc (qseq (k + 1)))
      simp only [List.length_cons]
      omega
    · simp [compressLoop, hcond]

/-- A 700-character base64 payload: `getDataSizeKB` reports 1 KB. -/
def bigJpeg : String := String.mk (List.replicate 700 'A')

/-- An encoder oracle that always stays over any 0 KB target and marks its
lowest-quality output (701 characters instead of 700). -/
def encBelowFloor : Dy → String := fun q =>
  if q = qseq 7 then String.mk (List.replicate 701 'A') else bigJpeg

set_option maxRecDepth 40000 in
/-- Claim C7, evaluated against the code.  The search does always
terminate — at most 7 re-encodes after the initial one, for every encoder
and target — and when still over target at the end it returns the final
re-encode rather than looping.  But the quality floor is violated: after
seven IEEE-754 subtractions of 0.1 the quality is 2^-55 ≈ 2.8e-17, which
is below 0.1, and the loop performs one final encode at that quality
(`qseq 7` is the last of the used qualities and the returned data is that
encode's output). -/
theorem compress_quality_below_floor :
    (∀ (enc : Dy → String) (maxSizeKB : Nat) (d : String),
        ((compressLoop enc maxSizeKB 8 q07 d).2).length ≤ 7) ∧
      dyLt (qseq 7) q01 = true ∧
      dyEq (qseq 7) ⟨1, 55⟩ = true ∧
      (compressQualitySearch encBelowFloor 0).2 =
        [qseq 0, qseq 1, qseq 2, qseq 3, qseq 4, qseq 5, qseq 6, qseq 7] ∧
      (compressQualitySearch encBelowFloor 0).1 =
        String.mk (List.replicate 701 'A') := by
  refine ⟨?_, by decide, by decide, by decide, by decide⟩
  intro enc maxSizeKB d
  have h := compressLoop_length_le enc maxSizeKB 8 0 (by omega) d
  simpa using h
